import Mathlib

/-!
Shallow embedding of `packages/base/src/viewlist.ts` (class `ViewList<T>`).

The class keeps an ordered list of model references (`_models`) paired with an
ordered list of promises for views (`views`).  `update` performs a
longest-common-prefix diff, splices out the non-matching tail of `views`,
attaches a removal continuation to each spliced-out promise, creates views for
the new tail, and returns `Promise.all(this.views)`.

Modelling decisions:
* A promise for a view is a `Handle`: a fresh numeric identity (`id`) plus a
  record of the creation-hook arguments (`model`, `index`) that produced it,
  so that object identity ("the same promise object") is expressible.
* The asynchronous world is an `Env`: for each promise id, its resolution
  time (`time`), its eventual settlement (`outcome`, fulfilment or rejection),
  and whether the creation hook that would have produced it threw
  synchronously instead (`syncThrow`).
* JavaScript values used as hooks / contexts are `JSV`: a few falsy
  primitives, opaque objects, the instance itself (`selfRef`, the `this` that
  `context || this` falls back to), and the default removal closure
  `function(view) { view.remove(); }` (`defaultRemove`).
* `null` fields (after `dispose`) are modelled with `Option`: `dispose` sets
  `views`/`models` to `none`; `update`/`remove` on a `none` field crash in JS
  (`null.length` / `splice` on `null`), modelled by returning `none`.
* Hook invocations are recorded as trace data: `update` reports the creation
  invocations it performed synchronously (`creations`), the removal
  continuations it attached (`removals`), and a synchronous exception
  (`thrown`) if a creation hook threw before the loop finished.
-/

namespace ViewListModel

/-- JavaScript values used for the hook and context parameters: the falsy
primitives, opaque object identities, the ViewList instance itself, and the
default removal closure allocated by `initialize`. -/
inductive JSV where
  | undefined
  | jsNull
  | jsFalse
  | jsZero
  | emptyStr
  | selfRef
  | defaultRemove
  | obj (id : Nat)
deriving DecidableEq, Repr

/-- JavaScript truthiness test for `JSV` values. -/
def JSV.falsy : JSV → Bool
  | .undefined => true
  | .jsNull => true
  | .jsFalse => true
  | .jsZero => true
  | .emptyStr => true
  | _ => false

/-- The JavaScript `a || b` operator on `JSV` values. -/
def jsOr (a b : JSV) : JSV := if a.falsy then b else a

/-- A promise for a view: `id` is the promise's object identity (fresh per
`Promise.resolve(create.call(...))`), and `model`/`index` record the creation
hook arguments that produced it. -/
structure Handle (M : Type) where
  id : Nat
  model : M
  index : Nat
deriving DecidableEq, Repr

/-- The fields of a `ViewList` instance.  `models` is `_models`, `views` is
`views`, `handlerContext` is `_handler_context`, `createView`/`removeView` are
`_create_view`/`_remove_view`.  `none` models a `null` field.  `nextId` is the
supply of fresh promise identities. -/
structure ViewList (M : Type) where
  handlerContext : JSV
  models : Option (List M)
  views : Option (List (Handle M))
  createView : JSV
  removeView : JSV
  nextId : Nat
deriving DecidableEq, Repr

variable {M V E : Type}

/-- An uninitialized instance, before `initialize` runs in the constructor. -/
def blank : ViewList M :=
  { handlerContext := .undefined, models := none, views := none,
    createView := .undefined, removeView := .undefined, nextId := 0 }

/-- Embeds the `initialize` method: `_handler_context = context || this`,
`_models = []`, `views = []`, `_create_view = create_view`,
`_remove_view = remove_view || function(view) { view.remove(); }`. -/
def ViewList.initFields (l : ViewList M) (create_view remove_view context : JSV) :
    ViewList M :=
  { l with
    handlerContext := jsOr context .selfRef
    models := some []
    views := some []
    createView := create_view
    removeView := jsOr remove_view .defaultRemove }

/-- Embeds the constructor, which just calls `initialize`. -/
def mkViewList (create_view remove_view context : JSV) : ViewList M :=
  ViewList.initFields blank create_view remove_view context

/-- The asynchronous environment: per promise id, its resolution time, its
eventual settlement, and — for creation invocations — whether the hook threw
synchronously instead of returning (keyed by the id the wrapped promise would
have received). -/
structure Env (E V : Type) where
  time : Nat → Nat
  outcome : Nat → Except E V
  syncThrow : Nat → Option E

/-- One synchronous invocation of a creation hook: which hook value was
called, with which receiver, and its `(model, index)` arguments. -/
structure CreateEvent (M : Type) where
  hook : JSV
  ctx : JSV
  model : M
  index : Nat
deriving DecidableEq, Repr

/-- One removal continuation attached by `update`:
`removed[j].then(function(view) { remove.call(context, view); })`.  It records
the hook value and receiver captured by the closure and the promise it was
attached to. -/
structure RemovalReg (M : Type) where
  hook : JSV
  ctx : JSV
  handle : Handle M
deriving DecidableEq, Repr

/-- One actual removal-hook invocation on a resolved view value. -/
structure RemovalInvocation (V : Type) where
  hook : JSV
  ctx : JSV
  value : V
deriving DecidableEq, Repr

/-- What invoking a removal-hook value does: the default closure allocated by
`initialize` calls `view.remove()` on the view itself; any other hook value is
an external callback applied to the view. -/
inductive RemoveAction (V : Type) where
  | external (hook : JSV) (value : V)
  | viewRemove (value : V)
deriving DecidableEq, Repr

/-- Semantics of applying a removal-hook value to a resolved view. -/
def applyRemove (hook : JSV) (v : V) : RemoveAction V :=
  match hook with
  | .defaultRemove => .viewRemove v
  | h => .external h v

/-- Embeds the forward scan of `update`:
`for (; i < new_models.length; i++) { if (i >= this._models.length ||
new_models[i] !== this._models[i]) break; }`.  Returns the first divergence
point `first_removed`. -/
def divergePoint [DecidableEq M] : List M → List M → Nat
  | [], _ => 0
  | _ :: _, [] => 0
  | a :: as, b :: bs => if a = b then divergePoint as bs + 1 else 0

/-- Embeds the creation loop of `update`:
`for (; i < new_models.length; i++) {
   this.views.push(Promise.resolve(create.call(context, new_models[i], i))); }`
over the remaining models, starting at index `i` with fresh-id supply `n`.
Returns the handles pushed, the creation invocations performed, the new
fresh-id supply, and `some e` if an invocation threw synchronously (aborting
the loop; the earlier pushes stay). -/
def createLoop (env : Env E V) (hook ctx : JSV) :
    List M → Nat → Nat → List (Handle M) × List (CreateEvent M) × Nat × Option E
  | [], _, n => ([], [], n, none)
  | m :: rest, i, n =>
    match env.syncThrow n with
    | some e => ([], [{ hook := hook, ctx := ctx, model := m, index := i }], n, some e)
    | none =>
      let r := createLoop env hook ctx rest (i + 1) (n + 1)
      ({ id := n, model := m, index := i } :: r.1,
       { hook := hook, ctx := ctx, model := m, index := i } :: r.2.1,
       r.2.2)

/-- The observable result of one `update` call: the state after the call
(mutated even if a creation hook threw), the creation invocations performed,
the removal continuations attached, and the synchronously thrown exception if
any (in which case no promise is returned to the caller). -/
structure UpdateOut (M E : Type) where
  state : ViewList M
  creations : List (CreateEvent M)
  removals : List (RemovalReg M)
  thrown : Option E
deriving DecidableEq, Repr

/-- The body of `update` once `this._models = ms` and `this.views = vs` have
been read: resolve the per-call hook/context overrides with `||`, scan for the
first divergence point, splice out the tail of `views` as the removal set,
attach a removal continuation to each, run the creation loop, and (if no
creation hook threw) replace `_models` with a copy of `new_models`. -/
def updateCore [DecidableEq M] (env : Env E V) (l : ViewList M)
    (ms : List M) (vs : List (Handle M)) (new_models : List M)
    (create_view remove_view context : JSV) : UpdateOut M E :=
  let removeH := jsOr remove_view l.removeView
  let createH := jsOr create_view l.createView
  let ctx := jsOr context l.handlerContext
  let p := divergePoint new_models ms
  let res := createLoop env createH ctx (new_models.drop p) p l.nextId
  { state :=
      { l with
        views := some (vs.take p ++ res.1)
        models := if res.2.2.2.isSome then l.models else some new_models
        nextId := res.2.2.1 }
    creations := res.2.1
    removals := (vs.drop p).map (fun h => { hook := removeH, ctx := ctx, handle := h })
    thrown := res.2.2.2 }

/-- Embeds `update(new_models, create_view?, remove_view?, context?)`.
Returns `none` when `_models` or `views` is `null` (the method then crashes
with a `TypeError` before doing anything observable). -/
def update [DecidableEq M] (env : Env E V) (l : ViewList M) (new_models : List M)
    (create_view remove_view context : JSV) : Option (UpdateOut M E) :=
  match l.models, l.views with
  | some ms, some vs => some (updateCore env l ms vs new_models create_view remove_view context)
  | _, _ => none

/-- `true` iff an `Except` settlement is a fulfilment. -/
def okB : Except E V → Bool
  | .ok _ => true
  | .error _ => false

/-- The rejection `Promise.all` adopts: among the rejected promises of the
list, the one with the earliest resolution time (earlier list position wins a
tie), together with that time.  `none` when every promise fulfils. -/
def firstRejection (env : Env E V) (hs : List (Handle M)) : Option (Nat × E) :=
  hs.foldl
    (fun acc h =>
      match env.outcome h.id with
      | .ok _ => acc
      | .error e =>
        match acc with
        | none => some (env.time h.id, e)
        | some (t, _) => if env.time h.id < t then some (env.time h.id, e) else acc)
    none

/-- The fulfilment values of the promises of the list, in list order. -/
def resolvedList (env : Env E V) (hs : List (Handle M)) : List V :=
  hs.filterMap (fun h => (env.outcome h.id).toOption)

/-- `Promise.all` over a list of view promises: fulfils with the resolved
values in list order, or rejects with the earliest rejection. -/
def promiseAll (env : Env E V) (hs : List (Handle M)) : Except E (List V) :=
  match firstRejection env hs with
  | some (_, e) => .error e
  | none => .ok (resolvedList env hs)

/-- The promise returned by `update` (`return Promise.all(this.views)`), as
its eventual settlement: `none` when `update` threw synchronously and returned
no promise at all. -/
def updateReturn (env : Env E V) (o : UpdateOut M E) : Option (Except E (List V)) :=
  match o.thrown, o.state.views with
  | none, some vs => some (promiseAll env vs)
  | _, _ => none

/-- The time at which the last promise of the list resolves (`0` for an empty
list): when `Promise.all` over fulfilling promises settles. -/
def maxTime (env : Env E V) (hs : List (Handle M)) : Nat :=
  hs.foldl (fun a h => max a (env.time h.id)) 0

/-- Stable insertion (used for sorting by resolution time): `x` goes after
every element whose key is `≤ key x`. -/
def insertKeyed {A : Type} (key : A → Nat) (x : A) : List A → List A
  | [] => [x]
  | y :: ys => if key y ≤ key x then y :: insertKeyed key x ys else x :: y :: ys

/-- Stable sort by a numeric key: elements fire in key order, ties broken by
original list order. -/
def stableSortKeyed {A : Type} (key : A → Nat) (l : List A) : List A :=
  l.foldl (fun acc x => insertKeyed key x acc) []

/-- The order in which the removal continuations attached by `update`
actually run: each fires when its own promise fulfils (a rejected promise
never runs its `then` fulfilment callback), so the invocations occur in
resolution-time order, ties broken by attachment (list) order. -/
def fireOrder (env : Env E V) (regs : List (RemovalReg M)) : List (RemovalReg M) :=
  stableSortKeyed (fun r => env.time r.handle.id)
    (regs.filter (fun r => okB (env.outcome r.handle.id)))

instance [DecidableEq E] [DecidableEq V] : DecidableEq (Except E V) := fun x y =>
  match x, y with
  | .ok a, .ok b =>
    if h : a = b then .isTrue (by rw [h]) else .isFalse (by simp [h])
  | .ok _, .error _ => .isFalse (by simp)
  | .error _, .ok _ => .isFalse (by simp)
  | .error a, .error b =>
    if h : a = b then .isTrue (by rw [h]) else .isFalse (by simp [h])

/-- The observable result of one `remove()` call: the state after the
returned promise settles, the removal-hook invocations performed, the
settlement of the returned promise, and the time at which the `then` callback
ran (or would have; on rejection the callback never runs and the state is
untouched). -/
structure RemoveOut (M V E : Type) where
  state : ViewList M
  invocations : List (RemovalInvocation V)
  result : Except E Unit
  fireTime : Nat
deriving DecidableEq, Repr

/-- Embeds `remove()`:
`return Promise.all(this.views).then((views) => {
   views.forEach((value) => this._remove_view.call(this._handler_context, value));
   this.views = []; this._models = []; });`
`none` when `views` is `null` (crash).  If some view promise rejects, the
`then` callback never runs: no hook fires, the state is unchanged, and the
returned promise rejects with the same reason. -/
def removeOp (env : Env E V) (l : ViewList M) : Option (RemoveOut M V E) :=
  match l.views with
  | none => none
  | some vs =>
    some (match firstRejection env vs with
      | some (t, e) => { state := l, invocations := [], result := .error e, fireTime := t }
      | none =>
        { state := { l with views := some [], models := some [] }
          invocations := (resolvedList env vs).map
            (fun v => { hook := l.removeView, ctx := l.handlerContext, value := v })
          result := .ok ()
          fireTime := maxTime env vs })

/-- Embeds `dispose()`: `this.views = null; this._models = null;`.  The body
contains no hook call, so the creation/removal traces of the operation are
empty; everything else is untouched. -/
def dispose (V : Type) (l : ViewList M) :
    ViewList M × List (CreateEvent M) × List (RemovalInvocation V) :=
  ({ l with views := none, models := none }, [], [])

/-- The index-aligned correspondence between stored models and stored view
promises: the promise at offset `k` (absolute index `i + k`) was created by a
creation-hook invocation on exactly that model at exactly that index. -/
def Corr : List M → List (Handle M) → Nat → Prop
  | [], [], _ => True
  | m :: ms, h :: vs, i => h.model = m ∧ h.index = i ∧ Corr ms vs (i + 1)
  | _, _, _ => False

/-- States reachable from the freshly constructed `ViewList` by `update`
calls that complete their synchronous mutation (no creation hook threw) and
by completed `remove()` calls. -/
inductive Reachable (E V : Type) [DecidableEq M] : ViewList M → Prop where
  | init (create_view remove_view context : JSV) :
      Reachable E V (mkViewList create_view remove_view context)
  | stepUpdate {l : ViewList M} (env : Env E V) (new_models : List M)
      (create_view remove_view context : JSV) (out : UpdateOut M E) :
      Reachable E V l →
      update env l new_models create_view remove_view context = some out →
      out.thrown = none →
      Reachable E V out.state
  | stepRemove {l : ViewList M} (env : Env E V) (ro : RemoveOut M V E) :
      Reachable E V l →
      removeOp env l = some ro →
      Reachable E V ro.state

/-! ### Helper lemmas about the divergence scan -/

theorem divergePoint_le_left [DecidableEq M] :
    ∀ (as bs : List M), divergePoint as bs ≤ as.length := by
  intro as
  induction as with
  | nil => intro bs; simp [divergePoint]
  | cons a as ih =>
    intro bs
    cases bs with
    | nil => simp [divergePoint]
    | cons b bs =>
      by_cases h : a = b
      · simp only [divergePoint, if_pos h, List.length_cons]
        exact Nat.succ_le_succ (ih bs)
      · simp [divergePoint, if_neg h]

theorem divergePoint_le_right [DecidableEq M] :
    ∀ (as bs : List M), divergePoint as bs ≤ bs.length := by
  intro as
  induction as with
  | nil => intro bs; simp [divergePoint]
  | cons a as ih =>
    intro bs
    cases bs with
    | nil => simp [divergePoint]
    | cons b bs =>
      by_cases h : a = b
      · simp only [divergePoint, if_pos h, List.length_cons]
        exact Nat.succ_le_succ (ih bs)
      · simp [divergePoint, if_neg h]

theorem divergePoint_take [DecidableEq M] :
    ∀ (as bs : List M), as.take (divergePoint as bs) = bs.take (divergePoint as bs) := by
  intro as
  induction as with
  | nil => intro bs; rfl
  | cons a as ih =>
    intro bs
    cases bs with
    | nil => simp [divergePoint]
    | cons b bs =>
      by_cases h : a = b
      · simp only [divergePoint, if_pos h, List.take_succ_cons]
        rw [h, ih bs]
      · simp [divergePoint, if_neg h]

theorem divergePoint_max [DecidableEq M] :
    ∀ (as bs : List M) (q : Nat), q ≤ as.length → q ≤ bs.length →
      as.take q = bs.take q → q ≤ divergePoint as bs := by
  intro as
  induction as with
  | nil =>
    intro bs q hq _ _
    have hq0 : q = 0 := Nat.le_zero.mp hq
    subst hq0; exact Nat.zero_le _
  | cons a as ih =>
    intro bs q hqa hqb htake
    cases bs with
    | nil =>
      have hq0 : q = 0 := Nat.le_zero.mp hqb
      subst hq0; exact Nat.zero_le _
    | cons b bs =>
      cases q with
      | zero => exact Nat.zero_le _
      | succ q =>
        simp only [List.take_succ_cons, List.cons.injEq] at htake
        obtain ⟨rfl, htake⟩ := htake
        simp only [divergePoint, if_pos rfl]
        exact Nat.succ_le_succ (ih bs q (Nat.le_of_succ_le_succ hqa)
          (Nat.le_of_succ_le_succ hqb) htake)

theorem divergePoint_self [DecidableEq M] :
    ∀ as : List M, divergePoint as as = as.length := by
  intro as
  induction as with
  | nil => simp [divergePoint]
  | cons a as ih => simp [divergePoint, ih]

/-! ### Generic list helpers -/

theorem take_append_exact {A : Type} :
    ∀ (l1 l2 : List A) (n : Nat), l1.length = n → (l1 ++ l2).take n = l1 := by
  intro l1
  induction l1 with
  | nil => intro l2 n h; simp [← h]
  | cons x xs ih =>
    intro l2 n h
    cases n with
    | zero => simp at h
    | succ n =>
      simp only [List.cons_append, List.take_succ_cons]
      rw [ih l2 n (by simpa using h)]

theorem take_of_length_le' {A : Type} :
    ∀ (l : List A) (n : Nat), l.length ≤ n → l.take n = l := by
  intro l
  induction l with
  | nil => intro n _; simp
  | cons x xs ih =>
    intro n h
    cases n with
    | zero => simp at h
    | succ n => simp only [List.take_succ_cons]; rw [ih n (by simpa using h)]

theorem drop_of_length_le' {A : Type} :
    ∀ (l : List A) (n : Nat), l.length ≤ n → l.drop n = [] := by
  intro l
  induction l with
  | nil => intro n _; simp
  | cons x xs ih =>
    intro n h
    cases n with
    | zero => simp at h
    | succ n => simp only [List.drop_succ_cons]; exact ih n (by simpa using h)

/-! ### Helper lemmas about the creation loop -/

theorem createLoop_eq (env : Env E V) (hook ctx : JSV)
    (hth : ∀ k, env.syncThrow k = none) :
    ∀ (rest : List M) (i n : Nat),
      createLoop env hook ctx rest i n =
        (((List.range' n rest.length).zip (rest.enumFrom i)).map
          (fun q => { id := q.1, model := q.2.2, index := q.2.1 }),
         (rest.enumFrom i).map (fun q => { hook := hook, ctx := ctx, model := q.2, index := q.1 }),
         n + rest.length, none) := by
  intro rest
  induction rest with
  | nil => intro i n; simp [createLoop]
  | cons m rest ih =>
    intro i n
    simp only [createLoop, hth n, List.length_cons, List.range'_succ, List.enumFrom_cons,
      List.zip_cons_cons, List.map_cons, ih (i + 1) (n + 1), Prod.mk.injEq]
    refine ⟨trivial, trivial, by omega, trivial⟩

theorem createLoop_thrown_none_len (env : Env E V) (hook ctx : JSV) :
    ∀ (rest : List M) (i n : Nat),
      (createLoop env hook ctx rest i n).2.2.2 = none →
      (createLoop env hook ctx rest i n).1.length = rest.length := by
  intro rest
  induction rest with
  | nil => intro i n _; simp [createLoop]
  | cons m rest ih =>
    intro i n h
    cases hst : env.syncThrow n with
    | some e => simp [createLoop, hst] at h
    | none =>
      simp only [createLoop, hst, List.length_cons]
      simp only [createLoop, hst] at h
      rw [ih (i + 1) (n + 1) h]

theorem createLoop_events (env : Env E V) (hook ctx : JSV) :
    ∀ (rest : List M) (i n : Nat),
      ∀ ev ∈ (createLoop env hook ctx rest i n).2.1, ev.hook = hook ∧ ev.ctx = ctx := by
  intro rest
  induction rest with
  | nil => intro i n ev h; simp [createLoop] at h
  | cons m rest ih =>
    intro i n ev h
    cases hst : env.syncThrow n with
    | some e =>
      simp only [createLoop, hst, List.mem_singleton] at h
      subst h; exact ⟨rfl, rfl⟩
    | none =>
      simp only [createLoop, hst, List.mem_cons] at h
      rcases h with h | h
      · subst h; exact ⟨rfl, rfl⟩
      · exact ih (i + 1) (n + 1) ev h

theorem createLoop_corr (env : Env E V) (hook ctx : JSV) :
    ∀ (rest : List M) (i n : Nat),
      (createLoop env hook ctx rest i n).2.2.2 = none →
      Corr rest (createLoop env hook ctx rest i n).1 i := by
  intro rest
  induction rest with
  | nil => intro i n _; simp [createLoop, Corr]
  | cons m rest ih =>
    intro i n h
    cases hst : env.syncThrow n with
    | some e => simp [createLoop, hst] at h
    | none =>
      simp only [createLoop, hst] at h ⊢
      exact ⟨rfl, rfl, ih (i + 1) (n + 1) h⟩

/-! ### Unfolding `update` on a live instance -/

theorem update_some [DecidableEq M] (env : Env E V) (l : ViewList M)
    (ms : List M) (vs : List (Handle M)) (new_models : List M)
    (create_view remove_view context : JSV)
    (hm : l.models = some ms) (hv : l.views = some vs) :
    update env l new_models create_view remove_view context =
      some (updateCore env l ms vs new_models create_view remove_view context) := by
  unfold update
  rw [hm, hv]

/-! ### Correspondence lemmas -/

theorem Corr_length : ∀ (ms : List M) (vs : List (Handle M)) (i : Nat),
    Corr ms vs i → ms.length = vs.length := by
  intro ms
  induction ms with
  | nil =>
    intro vs i h
    cases vs with
    | nil => rfl
    | cons v vs => simp [Corr] at h
  | cons m ms ih =>
    intro vs i h
    cases vs with
    | nil => simp [Corr] at h
    | cons v vs =>
      obtain ⟨_, _, hc⟩ := h
      simp only [List.length_cons]
      rw [ih vs (i + 1) hc]

theorem Corr_take : ∀ (ms : List M) (vs : List (Handle M)) (i p : Nat),
    Corr ms vs i → Corr (ms.take p) (vs.take p) i := by
  intro ms
  induction ms with
  | nil =>
    intro vs i p h
    cases vs with
    | nil => simp [Corr]
    | cons v vs => simp [Corr] at h
  | cons m ms ih =>
    intro vs i p h
    cases vs with
    | nil => simp [Corr] at h
    | cons v vs =>
      obtain ⟨h1, h2, hc⟩ := h
      cases p with
      | zero => simp [Corr]
      | succ p =>
        simp only [List.take_succ_cons]
        exact ⟨h1, h2, ih vs (i + 1) p hc⟩

theorem Corr_append : ∀ (ms1 : List M) (vs1 : List (Handle M)) (ms2 : List M)
    (vs2 : List (Handle M)) (i : Nat),
    Corr ms1 vs1 i → Corr ms2 vs2 (i + ms1.length) →
    Corr (ms1 ++ ms2) (vs1 ++ vs2) i := by
  intro ms1
  induction ms1 with
  | nil =>
    intro vs1 ms2 vs2 i h1 h2
    cases vs1 with
    | nil => simpa using h2
    | cons v vs => simp [Corr] at h1
  | cons m ms ih =>
    intro vs1 ms2 vs2 i h1 h2
    cases vs1 with
    | nil => simp [Corr] at h1
    | cons v vs =>
      obtain ⟨ha, hb, hc⟩ := h1
      refine ⟨ha, hb, ?_⟩
      apply ih vs ms2 vs2 (i + 1) hc
      simpa [Nat.add_comm, Nat.add_assoc, Nat.add_left_comm] using h2

/-! ### Helper lemmas about `Promise.all` -/

theorem foldl_rej_allOk (env : Env E V) :
    ∀ (hs : List (Handle M)) (acc : Option (Nat × E)),
      (∀ h ∈ hs, okB (env.outcome h.id) = true) →
      hs.foldl
        (fun acc h =>
          match env.outcome h.id with
          | .ok _ => acc
          | .error e =>
            match acc with
            | none => some (env.time h.id, e)
            | some (t, _) => if env.time h.id < t then some (env.time h.id, e) else acc)
        acc = acc := by
  intro hs
  induction hs with
  | nil => intro acc _; rfl
  | cons h hs ih =>
    intro acc hall
    have hh := hall h (List.mem_cons_self h hs)
    cases ho : env.outcome h.id with
    | ok v =>
      simp only [List.foldl_cons, ho]
      exact ih acc (fun g hg => hall g (List.mem_cons_of_mem h hg))
    | error e => simp [okB, ho] at hh

theorem firstRejection_allOk (env : Env E V) (hs : List (Handle M))
    (hall : ∀ h ∈ hs, okB (env.outcome h.id) = true) :
    firstRejection env hs = none :=
  foldl_rej_allOk env hs none hall

theorem firstRejection_single (env : Env E V) (vs1 : List (Handle M)) (h : Handle M)
    (vs2 : List (Handle M)) (e : E)
    (h1 : ∀ g ∈ vs1, okB (env.outcome g.id) = true)
    (he : env.outcome h.id = .error e)
    (h2 : ∀ g ∈ vs2, okB (env.outcome g.id) = true) :
    firstRejection env (vs1 ++ h :: vs2) = some (env.time h.id, e) := by
  unfold firstRejection
  rw [List.foldl_append]
  rw [foldl_rej_allOk env vs1 none h1]
  simp only [List.foldl_cons, he]
  exact foldl_rej_allOk env vs2 (some (env.time h.id, e)) h2

theorem promiseAll_allOk (env : Env E V) (hs : List (Handle M))
    (hall : ∀ h ∈ hs, okB (env.outcome h.id) = true) :
    promiseAll env hs = .ok (resolvedList env hs) := by
  unfold promiseAll
  rw [firstRejection_allOk env hs hall]

theorem promiseAll_single (env : Env E V) (vs1 : List (Handle M)) (h : Handle M)
    (vs2 : List (Handle M)) (e : E)
    (h1 : ∀ g ∈ vs1, okB (env.outcome g.id) = true)
    (he : env.outcome h.id = .error e)
    (h2 : ∀ g ∈ vs2, okB (env.outcome g.id) = true) :
    promiseAll env (vs1 ++ h :: vs2) = .error e := by
  unfold promiseAll
  rw [firstRejection_single env vs1 h vs2 e h1 he h2]

theorem toOption_ok (v : V) : (Except.ok v : Except E V).toOption = some v := rfl

theorem toOption_error (e : E) : (Except.error e : Except E V).toOption = (none : Option V) := rfl

theorem resolvedList_allOk_len (env : Env E V) :
    ∀ hs : List (Handle M), (∀ h ∈ hs, okB (env.outcome h.id) = true) →
      (resolvedList env hs).length = hs.length := by
  intro hs
  induction hs with
  | nil => intro _; rfl
  | cons h hs ih =>
    intro hall
    have hh := hall h (List.mem_cons_self h hs)
    have ih' := ih (fun g hg => hall g (List.mem_cons_of_mem h hg))
    cases ho : env.outcome h.id with
    | ok v =>
      simp only [resolvedList] at ih' ⊢
      simp only [List.filterMap_cons, ho, toOption_ok, List.length_cons]
      omega
    | error e => simp [okB, ho] at hh

theorem resolvedList_get (env : Env E V) :
    ∀ (hs : List (Handle M)) (k : Nat) (h : Handle M),
      (∀ g ∈ hs, okB (env.outcome g.id) = true) →
      hs[k]? = some h →
      ∃ v, env.outcome h.id = .ok v ∧ (resolvedList env hs)[k]? = some v := by
  intro hs
  induction hs with
  | nil => intro k h _ hk; simp at hk
  | cons g hs ih =>
    intro k h hall hk
    have hg := hall g (List.mem_cons_self g hs)
    cases ho : env.outcome g.id with
    | error e => simp [okB, ho] at hg
    | ok v =>
      have hres : resolvedList env (g :: hs) = v :: resolvedList env hs := by
        simp [resolvedList, List.filterMap_cons, ho, Except.toOption]
      cases k with
      | zero =>
        simp only [List.getElem?_cons_zero, Option.some.injEq] at hk
        subst hk
        exact ⟨v, ho, by rw [hres]; simp⟩
      | succ k =>
        simp only [List.getElem?_cons_succ] at hk
        obtain ⟨w, hw, hw2⟩ := ih k h (fun g' hg' => hall g' (List.mem_cons_of_mem g hg')) hk
        exact ⟨w, hw, by rw [hres]; simpa using hw2⟩

theorem foldl_max_init (env : Env E V) :
    ∀ (hs : List (Handle M)) (a : Nat),
      a ≤ hs.foldl (fun x g => max x (env.time g.id)) a := by
  intro hs
  induction hs with
  | nil => intro a; exact Nat.le_refl a
  | cons h hs ih =>
    intro a
    exact Nat.le_trans (Nat.le_max_left a (env.time h.id)) (ih (max a (env.time h.id)))

theorem le_maxTime (env : Env E V) :
    ∀ (hs : List (Handle M)) (h : Handle M), h ∈ hs → env.time h.id ≤ maxTime env hs := by
  intro hs
  have aux : ∀ (hs : List (Handle M)) (a : Nat) (h : Handle M), h ∈ hs →
      env.time h.id ≤ hs.foldl (fun x g => max x (env.time g.id)) a := by
    intro hs
    induction hs with
    | nil => intro a h hmem; simp at hmem
    | cons g hs ih =>
      intro a h hmem
      rcases List.mem_cons.mp hmem with rfl | hmem
      · exact Nat.le_trans (Nat.le_max_right a (env.time h.id))
          (foldl_max_init env hs (max a (env.time h.id)))
      · exact ih (max a (env.time g.id)) h hmem
  intro h hmem
  exact aux hs 0 h hmem

/-! ### Helper lemmas about the stable firing order -/

theorem filter_all {A : Type} (p : A → Bool) :
    ∀ l : List A, (∀ a ∈ l, p a = true) → l.filter p = l := by
  intro l
  induction l with
  | nil => intro _; rfl
  | cons x xs ih =>
    intro hall
    rw [List.filter_cons, if_pos (hall x (List.mem_cons_self x xs)),
      ih (fun a ha => hall a (List.mem_cons_of_mem x ha))]

theorem insertKeyed_ge {A : Type} (key : A → Nat) (x : A) :
    ∀ acc : List A, (∀ y ∈ acc, key y ≤ key x) → insertKeyed key x acc = acc ++ [x] := by
  intro acc
  induction acc with
  | nil => intro _; rfl
  | cons y ys ih =>
    intro hall
    simp only [insertKeyed, if_pos (hall y (List.mem_cons_self y ys)), List.cons_append,
      List.cons.injEq, true_and]
    exact ih (fun z hz => hall z (List.mem_cons_of_mem y hz))

theorem foldl_insert_pairwise {A : Type} (key : A → Nat) :
    ∀ (l acc : List A), List.Pairwise (fun a b => key a ≤ key b) l →
      (∀ y ∈ acc, ∀ z ∈ l, key y ≤ key z) →
      l.foldl (fun acc x => insertKeyed key x acc) acc = acc ++ l := by
  intro l
  induction l with
  | nil => intro acc _ _; simp
  | cons x xs ih =>
    intro acc hpw hacc
    obtain ⟨hx, hpw'⟩ := List.pairwise_cons.mp hpw
    simp only [List.foldl_cons]
    rw [insertKeyed_ge key x acc (fun y hy => hacc y hy x (List.mem_cons_self x xs))]
    rw [ih (acc ++ [x]) hpw' ?_]
    · simp
    · intro y hy z hz
      rcases List.mem_append.mp hy with hy | hy
      · exact hacc y hy z (List.mem_cons_of_mem x hz)
      · rw [List.mem_singleton.mp hy]; exact hx z hz

theorem stableSortKeyed_pairwise {A : Type} (key : A → Nat) (l : List A)
    (hpw : List.Pairwise (fun a b => key a ≤ key b) l) :
    stableSortKeyed key l = l := by
  unfold stableSortKeyed
  rw [foldl_insert_pairwise key l [] hpw (by intro y hy; simp at hy)]
  simp

/-! ### The shape of a completed `update` call -/

theorem updateCore_noThrow [DecidableEq M] (env : Env E V) (l : ViewList M)
    (ms : List M) (vs : List (Handle M)) (new_models : List M)
    (create_view remove_view context : JSV)
    (hth : ∀ k, env.syncThrow k = none) :
    updateCore env l ms vs new_models create_view remove_view context =
      { state :=
          { l with
            views := some (vs.take (divergePoint new_models ms) ++
              (((List.range' l.nextId (new_models.length - divergePoint new_models ms)).zip
                ((new_models.drop (divergePoint new_models ms)).enumFrom
                  (divergePoint new_models ms))).map
                (fun q => { id := q.1, model := q.2.2, index := q.2.1 })))
            models := some new_models
            nextId := l.nextId + (new_models.length - divergePoint new_models ms) }
        creations := ((new_models.drop (divergePoint new_models ms)).enumFrom
            (divergePoint new_models ms)).map
          (fun q => { hook := jsOr create_view l.createView,
                      ctx := jsOr context l.handlerContext, model := q.2, index := q.1 })
        removals := (vs.drop (divergePoint new_models ms)).map
          (fun h => { hook := jsOr remove_view l.removeView,
                      ctx := jsOr context l.handlerContext, handle := h })
        thrown := none } := by
  simp only [updateCore, createLoop_eq env _ _ hth]
  simp [List.length_drop]

/-- Unfolding `remove()` on an instance whose `views` is live. -/
theorem removeOp_some (env : Env E V) (l : ViewList M) (vs : List (Handle M))
    (hv : l.views = some vs) :
    removeOp env l =
      some (match firstRejection env vs with
        | some (t, e) => { state := l, invocations := [], result := .error e, fireTime := t }
        | none =>
          { state := { l with views := some [], models := some [] }
            invocations := (resolvedList env vs).map
              (fun v => { hook := l.removeView, ctx := l.handlerContext, value := v })
            result := .ok ()
            fireTime := maxTime env vs }) := by
  unfold removeOp
  rw [hv]

/-! ### Invariant preservation through one completed `update` -/

theorem updateCore_inv [DecidableEq M] (env : Env E V) (l : ViewList M)
    (ms : List M) (vs : List (Handle M)) (new_models : List M)
    (create_view remove_view context : JSV)
    (hcorr : Corr ms vs 0)
    (hth : (updateCore env l ms vs new_models create_view remove_view context).thrown = none) :
    ∃ vs', (updateCore env l ms vs new_models create_view remove_view context).state.views =
        some vs' ∧
      (updateCore env l ms vs new_models create_view remove_view context).state.models =
        some new_models ∧
      Corr new_models vs' 0 := by
  simp only [updateCore] at hth ⊢
  refine ⟨_, rfl, ?_, ?_⟩
  · rw [hth]; rfl
  · have hcl := createLoop_corr env (jsOr create_view l.createView)
      (jsOr context l.handlerContext)
      (new_models.drop (divergePoint new_models ms)) (divergePoint new_models ms) l.nextId hth
    have htk : new_models.take (divergePoint new_models ms) =
        ms.take (divergePoint new_models ms) := divergePoint_take new_models ms
    have hlen : (new_models.take (divergePoint new_models ms)).length =
        divergePoint new_models ms := by
      rw [List.length_take]
      have := divergePoint_le_left new_models ms
      omega
    have h1 : Corr (new_models.take (divergePoint new_models ms))
        (vs.take (divergePoint new_models ms)) 0 := by
      rw [htk]; exact Corr_take ms vs 0 (divergePoint new_models ms) hcorr
    have h2 : Corr (new_models.drop (divergePoint new_models ms))
        (createLoop env (jsOr create_view l.createView) (jsOr context l.handlerContext)
          (new_models.drop (divergePoint new_models ms)) (divergePoint new_models ms)
          l.nextId).1
        (0 + (new_models.take (divergePoint new_models ms)).length) := by
      rw [Nat.zero_add, hlen]; exact hcl
    have hfinal := Corr_append _ _ _ _ 0 h1 h2
    rw [List.take_append_drop] at hfinal
    exact hfinal

/-! ### Concrete fixtures used by witnesses and counterexamples -/

/-- An environment where every promise resolves immediately with value `0`. -/
def envT : Env Nat Nat :=
  { time := fun _ => 0, outcome := fun _ => .ok 0, syncThrow := fun _ => none }

/-- An environment where promise `1` resolves (time 3) before promise `0`
(time 5). -/
def envA : Env Nat Nat :=
  { time := fun n => if n = 0 then 5 else 3, outcome := fun _ => .ok 0,
    syncThrow := fun _ => none }

/-- An environment where the creation invocation allocating promise id `0`
throws `7` synchronously. -/
def envB : Env Nat Nat :=
  { time := fun _ => 0, outcome := fun _ => .ok 0,
    syncThrow := fun n => if n = 0 then some 7 else none }

/-- A freshly constructed list: creation hook object `1`, removal hook object
`2`, no context (falls back to the instance). -/
def exL0 : ViewList Nat := mkViewList (.obj 1) (.obj 2) .undefined

/-- The result of `update([10, 20])` on `exL0` under `envA`. -/
def exOut1 : UpdateOut Nat Nat :=
  { state :=
      { handlerContext := .selfRef, models := some [10, 20],
        views := some [{ id := 0, model := 10, index := 0 },
                       { id := 1, model := 20, index := 1 }],
        createView := .obj 1, removeView := .obj 2, nextId := 2 }
    creations := [{ hook := .obj 1, ctx := .selfRef, model := 10, index := 0 },
                  { hook := .obj 1, ctx := .selfRef, model := 20, index := 1 }]
    removals := []
    thrown := none }

/-- The result of the subsequent `update([])` on `exOut1.state` under `envA`:
both handles are spliced out. -/
def exOut2 : UpdateOut Nat Nat :=
  { state :=
      { handlerContext := .selfRef, models := some [], views := some [],
        createView := .obj 1, removeView := .obj 2, nextId := 2 }
    creations := []
    removals := [{ hook := .obj 2, ctx := .selfRef,
                   handle := { id := 0, model := 10, index := 0 } },
                 { hook := .obj 2, ctx := .selfRef,
                   handle := { id := 1, model := 20, index := 1 } }]
    thrown := none }

/-! ### Claims -/

/-- C1: for every `update(newModels)` call on a live `ViewList` whose state
satisfies the length invariant, the first divergence point
`divergePoint newModels models` is the length of the longest common prefix of
`newModels` and `models` under reference equality (it is bounded by both
lengths, the prefixes of that length agree, and it is the largest such index);
`update` splices out of `views` exactly the handles at indices
`first_removed..end`, in their original order, as the removal set; and the
handles at indices `0..first_removed - 1` are the identical objects before and
after the call. -/
theorem C1_divergence_and_splice [DecidableEq M] (env : Env E V) (l : ViewList M)
    (ms : List M) (vs : List (Handle M)) (new_models : List M)
    (create_view remove_view context : JSV) (out : UpdateOut M E)
    (hm : l.models = some ms) (hv : l.views = some vs)
    (hlen : vs.length = ms.length)
    (hout : update env l new_models create_view remove_view context = some out) :
    (divergePoint new_models ms ≤ new_models.length ∧
     divergePoint new_models ms ≤ ms.length ∧
     new_models.take (divergePoint new_models ms) = ms.take (divergePoint new_models ms)) ∧
    (∀ q, q ≤ new_models.length → q ≤ ms.length →
      new_models.take q = ms.take q → q ≤ divergePoint new_models ms) ∧
    out.removals.map RemovalReg.handle = vs.drop (divergePoint new_models ms) ∧
    ∃ vs', out.state.views = some vs' ∧
      vs'.take (divergePoint new_models ms) = vs.take (divergePoint new_models ms) := by
  rw [update_some env l ms vs new_models create_view remove_view context hm hv] at hout
  have heq := Option.some.inj hout
  subst heq
  refine ⟨⟨divergePoint_le_left new_models ms, divergePoint_le_right new_models ms,
    divergePoint_take new_models ms⟩,
    fun q hq1 hq2 hq3 => divergePoint_max new_models ms q hq1 hq2 hq3, ?_, ?_⟩
  · simp only [updateCore]
    rw [List.map_map]
    have hcomp : (RemovalReg.handle ∘ fun h : Handle M =>
        ({ hook := jsOr remove_view l.removeView, ctx := jsOr context l.handlerContext,
           handle := h } : RemovalReg M)) = fun h => h := rfl
    rw [hcomp]
    exact List.map_id' _
  · refine ⟨List.take (divergePoint new_models ms) vs ++
        (createLoop env (jsOr create_view l.createView) (jsOr context l.handlerContext)
          (List.drop (divergePoint new_models ms) new_models) (divergePoint new_models ms)
          l.nextId).1, by simp only [updateCore], ?_⟩
    apply take_append_exact
    rw [List.length_take]
    have := divergePoint_le_right new_models ms
    omega

/-- C1 witness: a concrete `update([10, 20])` on a fresh list. -/
theorem C1_witness :
    exOut1.removals.map RemovalReg.handle =
      List.drop (divergePoint [10, 20] ([] : List Nat)) [] ∧
    ∃ vs', exOut1.state.views = some vs' ∧
      vs'.take (divergePoint [10, 20] ([] : List Nat)) =
        List.take (divergePoint [10, 20] ([] : List Nat)) [] := by
  have h := C1_divergence_and_splice envA exL0 [] [] [10, 20]
    JSV.undefined JSV.undefined JSV.undefined exOut1 rfl rfl rfl (by decide)
  exact ⟨h.2.2.1, h.2.2.2⟩

/-- C3: starting from the freshly constructed state, every state reached by
`update` calls that complete their synchronous mutation and by completed
`remove()` calls satisfies `len(models) = len(views)`, with `views[i]` being
the pending handle created for `models[i]` (at index `i`). -/
theorem C3_invariant [DecidableEq M] {E V : Type} (l : ViewList M)
    (hr : Reachable E V l) :
    ∃ ms vs, l.models = some ms ∧ l.views = some vs ∧
      vs.length = ms.length ∧ Corr ms vs 0 := by
  induction hr with
  | init create_view remove_view context =>
    exact ⟨[], [], rfl, rfl, rfl, trivial⟩
  | stepUpdate env new_models create_view remove_view context out hr hout hth ih =>
    obtain ⟨ms, vs, hm, hv, hlen, hcorr⟩ := ih
    rw [update_some env _ ms vs new_models create_view remove_view context hm hv] at hout
    have heq := Option.some.inj hout
    rw [← heq] at hth
    obtain ⟨vs', hviews, hmodels, hcorr'⟩ :=
      updateCore_inv env _ ms vs new_models create_view remove_view context hcorr hth
    rw [← heq]
    exact ⟨new_models, vs', hmodels, hviews, (Corr_length _ _ _ hcorr').symm, hcorr'⟩
  | stepRemove env ro hr hro ih =>
    obtain ⟨ms, vs, hm, hv, hlen, hcorr⟩ := ih
    rw [removeOp_some env _ vs hv] at hro
    have heq := Option.some.inj hro
    cases hfr : firstRejection env vs with
    | some te =>
      obtain ⟨t, e⟩ := te
      simp only [hfr] at heq
      rw [← heq]
      exact ⟨ms, vs, hm, hv, hlen, hcorr⟩
    | none =>
      simp only [hfr] at heq
      rw [← heq]
      exact ⟨[], [], rfl, rfl, rfl, trivial⟩

/-- C3 witness: the invariant at the freshly constructed state. -/
theorem C3_witness :
    ∃ ms vs, exL0.models = some ms ∧ exL0.views = some vs ∧
      vs.length = ms.length ∧ Corr ms vs 0 :=
  C3_invariant exL0
    (Reachable.init (JSV.obj 1) (JSV.obj 2) JSV.undefined :
      Reachable Nat Nat (mkViewList (JSV.obj 1) (JSV.obj 2) JSV.undefined))

theorem mem_insertKeyed {A : Type} (key : A → Nat) (x y : A) :
    ∀ l : List A, y ∈ insertKeyed key x l ↔ y = x ∨ y ∈ l := by
  intro l
  induction l with
  | nil => simp [insertKeyed]
  | cons z zs ih =>
    by_cases h : key z ≤ key x
    · simp only [insertKeyed, if_pos h, List.mem_cons, ih]
      tauto
    · simp only [insertKeyed, if_neg h, List.mem_cons]

theorem mem_foldl_insert {A : Type} (key : A → Nat) :
    ∀ (l acc : List A) (y : A),
      y ∈ l.foldl (fun acc x => insertKeyed key x acc) acc ↔ y ∈ acc ∨ y ∈ l := by
  intro l
  induction l with
  | nil => intro acc y; simp
  | cons x xs ih =>
    intro acc y
    simp only [List.foldl_cons, ih (insertKeyed key x acc) y, mem_insertKeyed, List.mem_cons]
    tauto

theorem mem_stableSortKeyed {A : Type} (key : A → Nat) (l : List A) (y : A) :
    y ∈ stableSortKeyed key l ↔ y ∈ l := by
  unfold stableSortKeyed
  rw [mem_foldl_insert]
  simp

/-- An `update` whose target model list equals the current one and whose view
list already has matching length is a no-op: no removal set, no creations, the
views survive unchanged. -/
theorem updateCore_same [DecidableEq M] (env : Env E V) (l : ViewList M)
    (vs : List (Handle M)) (new_models : List M)
    (create_view remove_view context : JSV)
    (hlen : vs.length = new_models.length) :
    updateCore env l new_models vs new_models create_view remove_view context =
      { state := { l with views := some vs, models := some new_models, nextId := l.nextId }
        creations := []
        removals := []
        thrown := none } := by
  have hd1 : new_models.drop new_models.length = [] :=
    drop_of_length_le' new_models new_models.length (Nat.le_refl _)
  have hd2 : vs.drop new_models.length = [] :=
    drop_of_length_le' vs new_models.length (Nat.le_of_eq hlen)
  have ht : vs.take new_models.length = vs :=
    take_of_length_le' vs new_models.length (Nat.le_of_eq hlen)
  simp only [updateCore, divergePoint_self, hd1, hd2, ht, createLoop, List.map_nil]
  simp

/-- C2 counterexample: with two views whose promises resolve out of list
order (`envA`: promise 1 at time 3, promise 0 at time 5), `update([])` splices
both out, but the removal continuations fire in resolution order — handle 1
before handle 0 — not in the handles' original list order. -/
theorem C2_counterexample :
    update envA exL0 [10, 20] JSV.undefined JSV.undefined JSV.undefined = some exOut1 ∧
    update envA exOut1.state [] JSV.undefined JSV.undefined JSV.undefined = some exOut2 ∧
    (∀ r ∈ exOut2.removals, okB (envA.outcome r.handle.id) = true) ∧
    fireOrder envA exOut2.removals =
      [{ hook := .obj 2, ctx := .selfRef, handle := { id := 1, model := 20, index := 1 } },
       { hook := .obj 2, ctx := .selfRef, handle := { id := 0, model := 10, index := 0 } }] ∧
    fireOrder envA exOut2.removals ≠ exOut2.removals := by
  decide

/-- C2 (amended): each removal continuation attached by `update` fires only
for a handle that actually resolves, at that handle's own resolution time:
the invocation order is resolution order (stable, ties broken by list order),
which coincides with the original list order exactly when the handles resolve
in list order (e.g. when all were already resolved); and the promise `update`
returns does not await the removal continuations — it is determined by the
new `views` and the thrown status alone. -/
theorem C2_amended [DecidableEq M] (env : Env E V) (l : ViewList M)
    (ms : List M) (vs : List (Handle M)) (new_models : List M)
    (create_view remove_view context : JSV) (out : UpdateOut M E)
    (_hm : l.models = some ms) (_hv : l.views = some vs)
    (_hout : update env l new_models create_view remove_view context = some out) :
    (∀ r ∈ fireOrder env out.removals, okB (env.outcome r.handle.id) = true) ∧
    ((∀ r ∈ out.removals, okB (env.outcome r.handle.id) = true) →
      List.Pairwise (fun a b => env.time a.handle.id ≤ env.time b.handle.id) out.removals →
      fireOrder env out.removals = out.removals) ∧
    (∀ out' : UpdateOut M E, out'.state.views = out.state.views →
      out'.thrown = out.thrown → updateReturn env out' = updateReturn env out) := by
  refine ⟨?_, ?_, ?_⟩
  · intro r hr
    unfold fireOrder at hr
    rw [mem_stableSortKeyed] at hr
    exact (List.mem_filter.mp hr).2
  · intro hall hpw
    unfold fireOrder
    rw [filter_all _ out.removals hall]
    exact stableSortKeyed_pairwise _ out.removals hpw
  · intro out' hviews hthrown
    unfold updateReturn
    rw [hviews, hthrown]

/-- C2 (amended) witness: when all spliced-out promises are already resolved
(all times equal), the continuations fire in the original list order. -/
theorem C2_amended_witness :
    fireOrder envT exOut2.removals = exOut2.removals ∧
    updateReturn envT exOut2 = updateReturn envT exOut2 := by
  have h := C2_amended envT exOut1.state [10, 20]
    [{ id := 0, model := 10, index := 0 }, { id := 1, model := 20, index := 1 }] []
    JSV.undefined JSV.undefined JSV.undefined exOut2 rfl rfl (by decide)
  exact ⟨h.2.1 (by decide) (by decide), h.2.2 exOut2 rfl rfl⟩

/-- The result of `update([3])` on `exL0` under `envT`. -/
def exOut3 : UpdateOut Nat Nat :=
  { state :=
      { handlerContext := .selfRef, models := some [3],
        views := some [{ id := 0, model := 3, index := 0 }],
        createView := .obj 1, removeView := .obj 2, nextId := 1 }
    creations := [{ hook := .obj 1, ctx := .selfRef, model := 3, index := 0 }]
    removals := []
    thrown := none }

/-- The result of the repeated `update([3])` on `exOut3.state`: a no-op. -/
def exOut4 : UpdateOut Nat Nat :=
  { state := exOut3.state, creations := [], removals := [], thrown := none }

/-- C5: repeating `update(M)` with the same reference sequence immediately
after a completed `update(M)` performs zero creation-hook invocations and
attaches zero removal continuations, and leaves the stored `views` sequence
unchanged (and throws nothing). -/
theorem C5_idempotent [DecidableEq M] (env env' : Env E V) (l : ViewList M)
    (ms : List M) (vs : List (Handle M)) (new_models : List M)
    (out out' : UpdateOut M E)
    (hm : l.models = some ms) (hv : l.views = some vs) (hlen : vs.length = ms.length)
    (hth : ∀ k, env.syncThrow k = none)
    (h1 : update env l new_models JSV.undefined JSV.undefined JSV.undefined = some out)
    (h2 : update env' out.state new_models JSV.undefined JSV.undefined JSV.undefined = some out') :
    out'.creations = [] ∧ out'.removals = [] ∧
    out'.state.views = out.state.views ∧ out'.thrown = none := by
  rw [update_some env l ms vs new_models JSV.undefined JSV.undefined JSV.undefined hm hv,
    updateCore_noThrow env l ms vs new_models JSV.undefined JSV.undefined JSV.undefined hth] at h1
  have he1 := Option.some.inj h1
  subst he1
  rw [update_some env' _ new_models _ new_models JSV.undefined JSV.undefined JSV.undefined rfl rfl] at h2
  have hlen1 : (vs.take (divergePoint new_models ms) ++
      (((List.range' l.nextId (new_models.length - divergePoint new_models ms)).zip
        ((new_models.drop (divergePoint new_models ms)).enumFrom
          (divergePoint new_models ms))).map
        (fun q => ({ id := q.1, model := q.2.2, index := q.2.1 } : Handle M)))).length =
      new_models.length := by
    have hb1 := divergePoint_le_left new_models ms
    have hb2 := divergePoint_le_right new_models ms
    simp only [List.length_append, List.length_take, List.length_map, List.length_zip,
      List.length_range', List.enumFrom_length, List.length_drop]
    omega
  rw [updateCore_same env' _ _ new_models JSV.undefined JSV.undefined JSV.undefined hlen1] at h2
  have he2 := Option.some.inj h2
  subst he2
  exact ⟨rfl, rfl, rfl, rfl⟩

/-- C5 witness: `update([3])` twice on a fresh list. -/
theorem C5_witness :
    exOut4.creations = [] ∧ exOut4.removals = [] ∧
    exOut4.state.views = exOut3.state.views ∧ exOut4.thrown = none :=
  C5_idempotent envT envT exL0 [] [] [3] exOut3 exOut4 rfl rfl rfl
    (fun _ => rfl) (by decide) (by decide)

theorem jsOr_falsy (a b : JSV) (h : a.falsy = true) : jsOr a b = b := by
  simp [jsOr, h]

theorem jsOr_truthy (a b : JSV) (h : a.falsy = false) : jsOr a b = a := by
  simp [jsOr, h]

/-- C4: on a list of `N` views all of whose promises fulfil, `remove()` waits
for every handle to resolve (the `then` callback runs no earlier than any
handle's resolution time), invokes the stored default removal hook with the
stored default context exactly `N` times — once per resolved view, in
original list order — and then sets both `models` and `views` to empty. -/
theorem C4_remove_all (env : Env E V) (l : ViewList M) (vs : List (Handle M))
    (hv : l.views = some vs)
    (hall : ∀ h ∈ vs, okB (env.outcome h.id) = true) :
    ∃ ro, removeOp env l = some ro ∧
      ro.invocations.length = vs.length ∧
      (∀ (k : Nat) (h : Handle M), vs[k]? = some h →
        ∃ v, env.outcome h.id = Except.ok v ∧
          ro.invocations[k]? =
            some { hook := l.removeView, ctx := l.handlerContext, value := v }) ∧
      ro.state.views = some [] ∧ ro.state.models = some [] ∧
      (∀ h ∈ vs, env.time h.id ≤ ro.fireTime) ∧
      ro.result = Except.ok () := by
  have hfr := firstRejection_allOk env vs hall
  refine ⟨{ state := { l with views := some [], models := some [] }
            invocations := (resolvedList env vs).map
              (fun v => { hook := l.removeView, ctx := l.handlerContext, value := v })
            result := .ok ()
            fireTime := maxTime env vs }, ?_, ?_, ?_, rfl, rfl, ?_, rfl⟩
  · rw [removeOp_some env l vs hv, hfr]
  · rw [List.length_map]
    exact resolvedList_allOk_len env vs hall
  · intro k h hk
    obtain ⟨v, hov, hres⟩ := resolvedList_get env vs k h hall hk
    refine ⟨v, hov, ?_⟩
    rw [List.getElem?_map, hres]
    rfl
  · intro h hmem
    exact le_maxTime env vs h hmem

/-- C4 witness: `remove()` on the two-view state reached by `update([10, 20])`,
with both promises resolved. -/
theorem C4_witness :
    ∃ ro, removeOp envT exOut1.state = some ro ∧
      ro.invocations.length =
        ([{ id := 0, model := 10, index := 0 },
          { id := 1, model := 20, index := 1 }] : List (Handle Nat)).length ∧
      (∀ (k : Nat) (h : Handle Nat),
        ([{ id := 0, model := 10, index := 0 },
          { id := 1, model := 20, index := 1 }] : List (Handle Nat))[k]? = some h →
        ∃ v, envT.outcome h.id = Except.ok v ∧
          ro.invocations[k]? =
            some { hook := exOut1.state.removeView, ctx := exOut1.state.handlerContext,
                   value := v }) ∧
      ro.state.views = some [] ∧ ro.state.models = some [] ∧
      (∀ h ∈ ([{ id := 0, model := 10, index := 0 },
               { id := 1, model := 20, index := 1 }] : List (Handle Nat)),
        envT.time h.id ≤ ro.fireTime) ∧
      ro.result = Except.ok () :=
  C4_remove_all envT exOut1.state
    [{ id := 0, model := 10, index := 0 }, { id := 1, model := 20, index := 1 }]
    rfl (by decide)

/-- C6: when no creation hook throws, `update(newModels)` invokes the
creation hook synchronously, exactly once for each index `i` from the first
divergence point to `len(newModels) - 1` in ascending order, with arguments
`(newModels[i], i)` (the trace is the enumeration of the dropped tail); each
result is wrapped as a fresh pending handle and appended to `views` after the
kept prefix, in the same order; the stored `models` becomes (a copy of)
`newModels`; and nothing is thrown. -/
theorem C6_creation_order [DecidableEq M] (env : Env E V) (l : ViewList M)
    (ms : List M) (vs : List (Handle M)) (new_models : List M)
    (create_view remove_view context : JSV) (out : UpdateOut M E)
    (hm : l.models = some ms) (hv : l.views = some vs)
    (hth : ∀ k, env.syncThrow k = none)
    (hout : update env l new_models create_view remove_view context = some out) :
    out.creations = ((new_models.drop (divergePoint new_models ms)).enumFrom
        (divergePoint new_models ms)).map
      (fun q => { hook := jsOr create_view l.createView,
                  ctx := jsOr context l.handlerContext, model := q.2, index := q.1 }) ∧
    out.state.views = some (vs.take (divergePoint new_models ms) ++
      (((List.range' l.nextId (new_models.length - divergePoint new_models ms)).zip
        ((new_models.drop (divergePoint new_models ms)).enumFrom
          (divergePoint new_models ms))).map
        (fun q => { id := q.1, model := q.2.2, index := q.2.1 }))) ∧
    out.state.models = some new_models ∧
    out.thrown = none := by
  rw [update_some env l ms vs new_models create_view remove_view context hm hv,
    updateCore_noThrow env l ms vs new_models create_view remove_view context hth] at hout
  have heq := Option.some.inj hout
  subst heq
  exact ⟨rfl, rfl, rfl, rfl⟩

/-- C6 witness: the creation trace of `update([10, 20])` on a fresh list. -/
theorem C6_witness :
    exOut1.creations = (([10, 20].drop (divergePoint [10, 20] ([] : List Nat))).enumFrom
        (divergePoint [10, 20] ([] : List Nat))).map
      (fun q => { hook := jsOr JSV.undefined exL0.createView,
                  ctx := jsOr JSV.undefined exL0.handlerContext, model := q.2, index := q.1 }) ∧
    exOut1.state.views = some (([] : List (Handle Nat)).take
        (divergePoint [10, 20] ([] : List Nat)) ++
      (((List.range' exL0.nextId
          ([10, 20].length - divergePoint [10, 20] ([] : List Nat))).zip
        (([10, 20].drop (divergePoint [10, 20] ([] : List Nat))).enumFrom
          (divergePoint [10, 20] ([] : List Nat)))).map
        (fun q => { id := q.1, model := q.2.2, index := q.2.1 }))) ∧
    exOut1.state.models = some [10, 20] ∧
    exOut1.thrown = none :=
  C6_creation_order envT exL0 [] [] [10, 20] JSV.undefined JSV.undefined JSV.undefined exOut1
    rfl rfl (fun _ => rfl) (by decide)

/-- An environment where the promise with id `0` rejects with reason `9`;
nothing throws synchronously. -/
def envC : Env Nat Nat :=
  { time := fun _ => 0,
    outcome := fun n => if n = 0 then .error 9 else .ok 0,
    syncThrow := fun _ => none }

/-- The result of `update([5])` on `exL0` under `envB`: the single creation
invocation throws `7` synchronously, so no handle is pushed, `_models` is not
replaced, and no promise is returned. -/
def exOutB : UpdateOut Nat Nat :=
  { state :=
      { handlerContext := .selfRef, models := some [], views := some [],
        createView := .obj 1, removeView := .obj 2, nextId := 0 }
    creations := [{ hook := .obj 1, ctx := .selfRef, model := 5, index := 0 }]
    removals := []
    thrown := some 7 }

/-- The result of `update([5])` on `exL0` under `envC`: the creation returns
a promise that later rejects with `9`. -/
def exOutC : UpdateOut Nat Nat :=
  { state :=
      { handlerContext := .selfRef, models := some [5],
        views := some [{ id := 0, model := 5, index := 0 }],
        createView := .obj 1, removeView := .obj 2, nextId := 1 }
    creations := [{ hook := .obj 1, ctx := .selfRef, model := 5, index := 0 }]
    removals := []
    thrown := none }

/-- C7 counterexample: a creation hook that throws synchronously (`envB`)
does not leave a failed pending handle in `views` and does not make `update`'s
returned promise reject — the exception escapes `update` itself: the hook was
invoked (one creation event), `update` throws `7`, `views` holds no handle at
all, and there is no returned promise. -/
theorem C7_counterexample :
    update envB exL0 [5] JSV.undefined JSV.undefined JSV.undefined = some exOutB ∧
    exOutB.creations = [{ hook := .obj 1, ctx := .selfRef, model := 5, index := 0 }] ∧
    exOutB.thrown = some 7 ∧
    exOutB.state.views = some [] ∧
    exOutB.state.models = exL0.models ∧
    updateReturn envB exOutB = none := by
  decide

/-- C7 (amended): if a creation hook invocation rejects asynchronously (its
stored pending handle carries the failure, all other handles fulfilling), the
promise returned by `update` rejects with that same reason, unwrapped, and
the internal `Promise.all` resolution inside `remove()` rejects with the same
reason (its `then` callback never runs: no hook fires, the state is
untouched).  If instead a creation hook throws synchronously, the exception
propagates out of `update` itself: the stored `_models` is not replaced and
no promise is returned. -/
theorem C7_failure_propagation {M2 V2 E2 : Type} [DecidableEq M2] :
    (∀ (env : Env E2 V2) (l : ViewList M2) (ms : List M2) (vs : List (Handle M2))
       (new_models : List M2) (create_view remove_view context : JSV)
       (out : UpdateOut M2 E2) (vs1 vs2 : List (Handle M2)) (h : Handle M2) (e : E2),
       l.models = some ms → l.views = some vs →
       update env l new_models create_view remove_view context = some out →
       out.thrown = none →
       out.state.views = some (vs1 ++ h :: vs2) →
       env.outcome h.id = .error e →
       (∀ g ∈ vs1, okB (env.outcome g.id) = true) →
       (∀ g ∈ vs2, okB (env.outcome g.id) = true) →
       updateReturn env out = some (.error e) ∧
       ∃ ro, removeOp env out.state = some ro ∧ ro.result = .error e ∧
         ro.state = out.state ∧ ro.invocations = []) ∧
    (∀ (env : Env E2 V2) (l : ViewList M2) (new_models : List M2)
       (create_view remove_view context : JSV) (out : UpdateOut M2 E2) (e : E2),
       update env l new_models create_view remove_view context = some out →
       out.thrown = some e →
       out.state.models = l.models ∧ updateReturn env out = none) := by
  constructor
  · intro env l ms vs new_models create_view remove_view context out vs1 vs2 h e
      _hm _hv _hout hth hviews he hok1 hok2
    constructor
    · simp only [updateReturn, hth, hviews]
      rw [promiseAll_single env vs1 h vs2 e hok1 he hok2]
    · refine ⟨{ state := out.state, invocations := [], result := .error e,
                fireTime := env.time h.id }, ?_, rfl, rfl, rfl⟩
      rw [removeOp_some env out.state (vs1 ++ h :: vs2) hviews,
        firstRejection_single env vs1 h vs2 e hok1 he hok2]
  · intro env l new_models create_view remove_view context out e hout hth
    cases hm : l.models with
    | none => simp [update, hm] at hout
    | some ms =>
      cases hv : l.views with
      | none => simp [update, hm, hv] at hout
      | some vs =>
        rw [update_some env l ms vs new_models create_view remove_view context hm hv] at hout
        have heq := Option.some.inj hout
        subst heq
        simp only [updateCore] at hth
        constructor
        · simp only [updateCore, hth, Option.isSome_some, if_true, hm]
        · simp only [updateReturn, updateCore, hth]

/-- C7 (amended) witness: a single creation whose promise rejects with `9`. -/
theorem C7_witness :
    updateReturn envC exOutC = some (Except.error 9) ∧
    ∃ ro, removeOp envC exOutC.state = some ro ∧ ro.result = Except.error 9 ∧
      ro.state = exOutC.state ∧ ro.invocations = [] :=
  C7_failure_propagation.1 envC exL0 [] [] [5] JSV.undefined JSV.undefined JSV.undefined exOutC
    [] [] { id := 0, model := 5, index := 0 } 9
    rfl rfl (by decide) rfl rfl rfl (by decide) (by decide)

/-- C8: `dispose()` performs no creation-hook and no removal-hook invocation
(its trace components are empty), clears `views` and `models` to the absent
(`null`) state, and changes no other field of the structure. -/
theorem C8_dispose_frame (V2 : Type) (l : ViewList M) :
    (dispose V2 l).1.views = none ∧ (dispose V2 l).1.models = none ∧
    (dispose V2 l).2.1 = [] ∧ (dispose V2 l).2.2 = [] ∧
    (dispose V2 l).1.handlerContext = l.handlerContext ∧
    (dispose V2 l).1.createView = l.createView ∧
    (dispose V2 l).1.removeView = l.removeView ∧
    (dispose V2 l).1.nextId = l.nextId :=
  ⟨rfl, rfl, rfl, rfl, rfl, rfl, rfl, rfl⟩

/-- C9: the fallback to defaults is JavaScript truthiness, not mere omission:
a falsy construction context makes the hooks' receiver the instance itself
(`selfRef`), a truthy one is kept; a falsy construction removal hook installs
the default closure, whose invocation performs `view.remove()` on the view;
any falsy per-call `create_view`/`remove_view`/`context` argument of `update`
falls back to the stored construction-time default (the traced invocations
use the stored values); and `update` never changes the stored defaults. -/
theorem C9_falsy_fallbacks (M2 V2 E2 : Type) [DecidableEq M2] :
    (∀ create_view remove_view context : JSV, context.falsy = true →
      (mkViewList create_view remove_view context : ViewList M2).handlerContext =
        JSV.selfRef) ∧
    (∀ create_view remove_view context : JSV, context.falsy = false →
      (mkViewList create_view remove_view context : ViewList M2).handlerContext = context) ∧
    (∀ create_view remove_view context : JSV, remove_view.falsy = true →
      (mkViewList create_view remove_view context : ViewList M2).removeView =
        JSV.defaultRemove) ∧
    (∀ create_view remove_view context : JSV, remove_view.falsy = false →
      (mkViewList create_view remove_view context : ViewList M2).removeView = remove_view) ∧
    (∀ v : V2, applyRemove JSV.defaultRemove v = RemoveAction.viewRemove v) ∧
    (∀ (env : Env E2 V2) (l : ViewList M2) (ms : List M2) (vs : List (Handle M2))
       (new_models : List M2) (create_view remove_view context : JSV) (out : UpdateOut M2 E2),
       l.models = some ms → l.views = some vs →
       update env l new_models create_view remove_view context = some out →
       ((create_view.falsy = true → ∀ ev ∈ out.creations, ev.hook = l.createView) ∧
        (remove_view.falsy = true → ∀ rg ∈ out.removals, rg.hook = l.removeView) ∧
        (context.falsy = true →
          (∀ ev ∈ out.creations, ev.ctx = l.handlerContext) ∧
          (∀ rg ∈ out.removals, rg.ctx = l.handlerContext)) ∧
        out.state.handlerContext = l.handlerContext ∧
        out.state.createView = l.createView ∧
        out.state.removeView = l.removeView)) := by
  refine ⟨?_, ?_, ?_, ?_, ?_, ?_⟩
  · intro create_view remove_view context hx
    simp [mkViewList, ViewList.initFields, jsOr_falsy context JSV.selfRef hx]
  · intro create_view remove_view context hx
    simp [mkViewList, ViewList.initFields, jsOr_truthy context JSV.selfRef hx]
  · intro create_view remove_view context hr
    simp [mkViewList, ViewList.initFields, jsOr_falsy remove_view JSV.defaultRemove hr]
  · intro create_view remove_view context hr
    simp [mkViewList, ViewList.initFields, jsOr_truthy remove_view JSV.defaultRemove hr]
  · intro v
    rfl
  · intro env l ms vs new_models create_view remove_view context out hm hv hout
    rw [update_some env l ms vs new_models create_view remove_view context hm hv] at hout
    have heq := Option.some.inj hout
    subst heq
    refine ⟨?_, ?_, ?_, rfl, rfl, rfl⟩
    · intro hc ev hev
      simp only [updateCore] at hev
      have hprop := createLoop_events env (jsOr create_view l.createView)
        (jsOr context l.handlerContext) (new_models.drop (divergePoint new_models ms))
        (divergePoint new_models ms) l.nextId ev hev
      rw [hprop.1, jsOr_falsy create_view l.createView hc]
    · intro hr rg hrg
      simp only [updateCore, List.mem_map] at hrg
      obtain ⟨h, _, rfl⟩ := hrg
      exact jsOr_falsy remove_view l.removeView hr
    · intro hx
      constructor
      · intro ev hev
        simp only [updateCore] at hev
        have hprop := createLoop_events env (jsOr create_view l.createView)
          (jsOr context l.handlerContext) (new_models.drop (divergePoint new_models ms))
          (divergePoint new_models ms) l.nextId ev hev
        rw [hprop.2, jsOr_falsy context l.handlerContext hx]
      · intro rg hrg
        simp only [updateCore, List.mem_map] at hrg
        obtain ⟨h, _, rfl⟩ := hrg
        exact jsOr_falsy context l.handlerContext hx

/-- C9 witness: concrete falsy arguments at construction and per call. -/
theorem C9_witness :
    (mkViewList (JSV.obj 1) JSV.jsNull JSV.jsZero : ViewList Nat).handlerContext =
      JSV.selfRef ∧
    (mkViewList (JSV.obj 1) JSV.jsNull JSV.jsZero : ViewList Nat).removeView =
      JSV.defaultRemove ∧
    applyRemove JSV.defaultRemove (5 : Nat) = RemoveAction.viewRemove 5 ∧
    (JSV.falsy JSV.undefined = true → ∀ ev ∈ exOut1.creations, ev.hook = exL0.createView) ∧
    exOut1.state.removeView = exL0.removeView := by
  have h := C9_falsy_fallbacks Nat Nat Nat
  have h6 := h.2.2.2.2.2 envA exL0 [] [] [10, 20] JSV.undefined JSV.undefined JSV.undefined exOut1
    rfl rfl (by decide)
  exact ⟨h.1 (JSV.obj 1) JSV.jsNull JSV.jsZero rfl,
    h.2.2.1 (JSV.obj 1) JSV.jsNull JSV.jsZero rfl,
    h.2.2.2.2.1 5, h6.1, h6.2.2.2.2.2⟩

/-- The result of `update([], create, remove, context)` on `exOut1.state`
with truthy removal-hook (`obj 9`) and context (`obj 8`) overrides. -/
def exOut5 : UpdateOut Nat Nat :=
  { state :=
      { handlerContext := .selfRef, models := some [], views := some [],
        createView := .obj 1, removeView := .obj 2, nextId := 2 }
    creations := []
    removals := [{ hook := .obj 9, ctx := .obj 8,
                   handle := { id := 0, model := 10, index := 0 } },
                 { hook := .obj 9, ctx := .obj 8,
                   handle := { id := 1, model := 20, index := 1 } }]
    thrown := none }

/-- C10: when an `update` call supplies truthy removal-hook and context
overrides, every removal continuation attached by that call captures the
overridden hook and context — not the stored (creation-time) defaults. -/
theorem C10_override_wins [DecidableEq M] (env : Env E V) (l : ViewList M)
    (ms : List M) (vs : List (Handle M)) (new_models : List M)
    (create_view remove_view context : JSV) (out : UpdateOut M E)
    (hm : l.models = some ms) (hv : l.views = some vs)
    (hr : remove_view.falsy = false) (hx : context.falsy = false)
    (hout : update env l new_models create_view remove_view context = some out) :
    ∀ rg ∈ out.removals, rg.hook = remove_view ∧ rg.ctx = context := by
  rw [update_some env l ms vs new_models create_view remove_view context hm hv] at hout
  have heq := Option.some.inj hout
  subst heq
  intro rg hrg
  simp only [updateCore, List.mem_map] at hrg
  obtain ⟨h, _, rfl⟩ := hrg
  exact ⟨jsOr_truthy remove_view l.removeView hr, jsOr_truthy context l.handlerContext hx⟩

/-- C10 witness: `update([], undefined, obj 9, obj 8)` on the two-view state;
the attached continuation for the first removed handle captures the
overridden hook `obj 9` and context `obj 8`. -/
theorem C10_witness :
    ({ hook := JSV.obj 9, ctx := JSV.obj 8,
       handle := { id := 0, model := 10, index := 0 } } : RemovalReg Nat) ∈
      exOut5.removals ∧
    ({ hook := JSV.obj 9, ctx := JSV.obj 8,
       handle := { id := 0, model := 10, index := 0 } } : RemovalReg Nat).hook =
      JSV.obj 9 ∧
    ({ hook := JSV.obj 9, ctx := JSV.obj 8,
       handle := { id := 0, model := 10, index := 0 } } : RemovalReg Nat).ctx =
      JSV.obj 8 := by
  have h := C10_override_wins envT exOut1.state [10, 20]
    [{ id := 0, model := 10, index := 0 }, { id := 1, model := 20, index := 1 }]
    [] JSV.undefined (JSV.obj 9) (JSV.obj 8) exOut5 rfl rfl rfl rfl (by decide)
  exact ⟨by decide, (h _ (by decide)).1, (h _ (by decide)).2⟩

end ViewListModel
